import Mathlib

/-!
Shallow embedding of the FeedJournal repository (a voice/text journal app):
the data model in `types.ts`, the Gemini transcription service and the App
component handlers plus date bucketing, and the AudioRecorder component's
resource management.  The storage service (`services/storage`) is imported by
the app but absent from the sources; it is modelled from the spec where
needed.  Timestamps are integer milliseconds since the Unix epoch; calendar
computations model the JavaScript Date API at UTC.
-/

/-- `EntryType` from types.ts: `'text' | 'audio'`. -/
inductive EntryType where
  | text
  | audio
deriving DecidableEq, Repr

/-- A binary blob with a MIME-type tag (the JS `Blob`): opaque bytes plus
`Blob.type`. -/
structure Blob where
  bytes : List Nat
  type : String
deriving DecidableEq, Repr

/-- `JournalEntry` from types.ts. -/
structure JournalEntry where
  id : String
  type : EntryType
  content : String
  audioBlob : Option Blob := none
  timestamp : Int
deriving DecidableEq, Repr

/-- The calendar day (days since the Unix epoch) containing a millisecond
timestamp; `Date.toDateString()` equality between two timestamps is exactly
equality of this value, since `toDateString` renders weekday, month, day and
year. -/
def calendarDay (t : Int) : Int := Int.ediv t 86400000

/-- Civil calendar date `(year, month, day)` of a day number (days since
1970-01-01), by the standard Gregorian conversion. -/
def civilFromDays (z : Int) : Int × Nat × Nat :=
  let zs : Int := z + 719468
  let era : Int := Int.ediv zs 146097
  let doe : Nat := (zs - era * 146097).toNat
  let yoe : Nat := (doe - doe / 1460 + doe / 36524 - doe / 146096) / 365
  let doy : Nat := doe - (365 * yoe + yoe / 4 - yoe / 100)
  let mp : Nat := (5 * doy + 2) / 153
  let d : Nat := doy - (153 * mp + 2) / 5 + 1
  let m : Nat := if mp < 10 then mp + 3 else mp - 9
  (((yoe : Int) + era * 400) + (if m ≤ 2 then 1 else 0), m, d)

/-- Day of week of a day number, `0 = Sunday` (1970-01-01 was a Thursday). -/
def weekdayOf (z : Int) : Nat := ((z + 4).emod 7).toNat

/-- English long weekday name, as `toLocaleDateString` with a default
locale renders it. -/
def weekdayName (w : Nat) : String :=
  ["Sunday", "Monday", "Tuesday", "Wednesday", "Thursday", "Friday",
   "Saturday"].getD w ""

/-- English long month name (1-indexed). -/
def monthName (m : Nat) : String :=
  ["", "January", "February", "March", "April", "May", "June", "July",
   "August", "September", "October", "November", "December"].getD m ""

/-- Model of `date.toLocaleDateString(undefined, { weekday: 'long',
month: 'long', day: 'numeric' })` applied to any timestamp on day `z`:
long weekday, long month and day of month — note the year is not part of
the string. -/
def localeDateString (z : Int) : String :=
  weekdayName (weekdayOf z) ++ ", " ++ monthName (civilFromDays z).2.1
    ++ " " ++ toString (civilFromDays z).2.2

/-- The group key computed inside `groupEntriesByDate` (App, lines 144-156):
`"Today"` when the entry's `toDateString` equals that of `new Date()` (same
calendar day as `now`), `"Yesterday"` when it equals that of the previous
calendar day, otherwise the locale-formatted weekday+month+day string. -/
def groupKey (now t : Int) : String :=
  let key := localeDateString (calendarDay t)
  if calendarDay t = calendarDay now then "Today"
  else if calendarDay t = calendarDay now - 1 then "Yesterday"
  else key

/-- One step of the `groups[key].push(entry)` loop body in
`groupEntriesByDate`: the JS object is modelled as an association list in key
insertion order (string-keyed JS objects preserve insertion order for these
non-numeric keys); a missing key is created with `[]` and the entry is
appended to its bucket. -/
def addToGroup (gs : List (String × List JournalEntry)) (k : String)
    (e : JournalEntry) : List (String × List JournalEntry) :=
  match gs with
  | [] => [(k, [e])]
  | (k1, es) :: rest =>
      if k1 = k then (k1, es ++ [e]) :: rest
      else (k1, es) :: addToGroup rest k e

/-- `groupEntriesByDate` (App, lines 142-164): fold the entries through the
bucket-appending loop, starting from the empty object. `now` is the
timestamp of the `new Date()` taken during the scan. -/
def groupEntriesByDate (now : Int) (entries : List JournalEntry) :
    List (String × List JournalEntry) :=
  entries.foldl (fun gs e => addToGroup gs (groupKey now e.timestamp) e) []

/-- Reading `groups[dateKey]` from the association-list model; a missing key
reads as the empty bucket. -/
def lookupGroup (gs : List (String × List JournalEntry)) (k : String) :
    List JournalEntry :=
  match gs with
  | [] => []
  | (k1, es) :: rest => if k1 = k then es else lookupGroup rest k

/-- The bucket displayed under key `k`: `groupEntriesByDate(entries)[k]`. -/
def groupsOf (now : Int) (entries : List JournalEntry) (k : String) :
    List JournalEntry :=
  lookupGroup (groupEntriesByDate now entries) k

/-- First-occurrence deduplication, the order-preserving semantics of
`Array.from(new Set(xs))`: each element is added to the accumulated set
unless already present, so each element's first occurrence is kept, in
order. -/
def firstDedup {β : Type} [DecidableEq β] (l : List β) : List β :=
  l.foldl (fun acc x => if x ∈ acc then acc else acc ++ [x]) []

/-- Recursive characterisation of first-occurrence deduplication: keep the
head, drop its later duplicates, recurse. -/
def firstDedupRec {β : Type} [DecidableEq β] : List β → List β
  | [] => []
  | a :: t => a :: firstDedupRec (t.filter (fun x => decide (x ≠ a)))
termination_by l => l.length
decreasing_by
  simp only [List.length_cons]
  exact Nat.lt_succ_of_le (List.length_filter_le _ _)

/-- `orderedKeys` (App, lines 168-177): the group keys of the entries, in
first-occurrence order, via `Array.from(new Set(entries.map(...)))`. -/
def orderedKeys (now : Int) (entries : List JournalEntry) : List String :=
  firstDedup (entries.map (fun e => groupKey now e.timestamp))

/-- JavaScript `a || b` on strings: the empty string is the only falsy
string. -/
def jsOr (a b : String) : String := if a = "" then b else a

/-- JavaScript truthiness test `!v` for an optional string environment
value: `none` (undefined) and the empty string are falsy. -/
def isFalsyKey : Option String → Bool
  | none => true
  | some s => s = ""

/-- The base64 alphabet used by `readAsDataURL`. -/
def base64Alphabet : List Char :=
  "ABCDEFGHIJKLMNOPQRSTUVWXYZabcdefghijklmnopqrstuvwxyz0123456789+/".toList

/-- Standard base64 of a byte sequence (bytes taken mod 256), with `=`
padding, modelling the data-URL payload produced by `blobToBase64`. -/
def base64Encode : List Nat → List Char
  | [] => []
  | [a] =>
      let a := a % 256
      [base64Alphabet.getD (a / 4) 'A',
       base64Alphabet.getD (a % 4 * 16) 'A', '=', '=']
  | [a, b] =>
      let a := a % 256
      let b := b % 256
      [base64Alphabet.getD (a / 4) 'A',
       base64Alphabet.getD (a % 4 * 16 + b / 16) 'A',
       base64Alphabet.getD (b % 16 * 4) 'A', '=']
  | a :: b :: c :: rest =>
      let a := a % 256
      let b := b % 256
      let c := c % 256
      base64Alphabet.getD (a / 4) 'A' ::
        base64Alphabet.getD (a % 4 * 16 + b / 16) 'A' ::
        base64Alphabet.getD (b % 16 * 4 + c / 64) 'A' ::
        base64Alphabet.getD (c % 64) 'A' :: base64Encode rest

/-- `blobToBase64` (gemini service, lines 4-14): the base64 payload of the
blob's bytes (the part of the data URL after the comma). -/
def blobToBase64 (blob : Blob) : String := String.mk (base64Encode blob.bytes)

/-- The request `transcribeAudio` passes to `ai.models.generateContent`:
model name, inline audio data with its MIME type, and the fixed
transcription instruction. -/
structure GenContentRequest where
  model : String
  mimeType : String
  data : String
  instruction : String
deriving DecidableEq, Repr

/-- The provider response: `response.text` may be absent. -/
structure GenContentResponse where
  text : Option String
deriving DecidableEq, Repr

/-- A transport or provider fault raised by the remote call, carried
opaquely. -/
structure NetFault where
  cause : String
deriving DecidableEq, Repr

/-- The error thrown by `transcribeAudio`: either the locally constructed
`Error("API Key is missing.")` or the rethrown provider fault. -/
inductive TranscribeError where
  | configError (msg : String)
  | providerFault (fault : NetFault)
deriving DecidableEq, Repr

/-- The fixed instruction text sent with every transcription request. -/
def geminiInstruction : String :=
  "Transcribe the audio exactly as spoken. Do not add any introduction, explanation, or timestamps. If the audio is silent or unintelligible, return an empty string."

/-- The single request `transcribeAudio` builds for a blob (gemini service,
lines 25-40): `mimeType: audioBlob.type || 'audio/webm'`. -/
def geminiRequest (audioBlob : Blob) : GenContentRequest :=
  { model := "gemini-2.5-flash"
    mimeType := jsOr audioBlob.type "audio/webm"
    data := blobToBase64 audioBlob
    instruction := geminiInstruction }

/-- `transcribeAudio` (gemini service, lines 16-47).  The remote capability
is a function `net` from requests to a response or fault; the result is the
returned text or thrown error, paired with the list of requests actually
issued during the call. -/
def transcribeAudio (apiKey : Option String)
    (net : GenContentRequest → Except NetFault GenContentResponse)
    (audioBlob : Blob) :
    Except TranscribeError String × List GenContentRequest :=
  if isFalsyKey apiKey then
    (Except.error (TranscribeError.configError "API Key is missing."), [])
  else
    let req := geminiRequest audioBlob
    match net req with
    | Except.ok resp => (Except.ok (jsOr (resp.text.getD "") ""), [req])
    | Except.error e => (Except.error (TranscribeError.providerFault e), [req])

/-- Modelled from the spec: the durable `EntryStore` behind
`services/storage` (imported by the App as `getAllEntries` / `saveEntry` /
`deleteEntry` but absent from the sources).  The store keeps every persisted
entry; `inserted` lists them in insertion order, oldest insert first. -/
structure EntryStore where
  inserted : List JournalEntry
deriving DecidableEq, Repr

/-- The store in its initial (empty) durable state. -/
def emptyStore : EntryStore := ⟨[]⟩

/-- Modelled from the spec: `insert`, the storage service's `saveEntry` —
the entry is persisted, extending the insertion order. -/
def saveEntry (s : EntryStore) (e : JournalEntry) : EntryStore :=
  ⟨s.inserted ++ [e]⟩

/-- Modelled from the spec: the storage service's `deleteEntry` removes the
entry with the given id. -/
def deleteEntry (s : EntryStore) (id : String) : EntryStore :=
  ⟨s.inserted.filter (fun e => decide (e.id ≠ id))⟩

/-- The listing order of `listAll`: `createdAt` descending. -/
def newestFirst (a b : JournalEntry) : Prop := b.timestamp ≤ a.timestamp

instance : DecidableRel newestFirst := fun a b => Int.decLe b.timestamp a.timestamp

instance : IsTotal JournalEntry newestFirst :=
  ⟨fun a b => by unfold newestFirst; exact Int.le_total b.timestamp a.timestamp⟩

instance : IsTrans JournalEntry newestFirst :=
  ⟨fun _ _ _ h1 h2 => by unfold newestFirst at *; exact Int.le_trans h2 h1⟩

/-- Modelled from the spec: `listAll`, the storage service's
`getAllEntries` — every persisted entry ordered by `createdAt` descending,
ties broken by insertion order with the later insert first.  A stable sort
of the reversed insertion order realises exactly that tie-break. -/
def getAllEntries (s : EntryStore) : List JournalEntry :=
  List.insertionSort newestFirst s.inserted.reverse

/-- `handleTextSubmit` (App, lines 81-102), reduced to its data effect: a
blank input is rejected; otherwise a text entry with the trimmed content and
no audio blob is persisted and prepended to the in-memory list, and the
input is cleared.  `id` is the fresh uuid, `now` the `Date.now()` value. -/
def handleTextSubmit (inputText : String) (id : String) (now : Int)
    (store : EntryStore) (uiEntries : List JournalEntry) :
    EntryStore × List JournalEntry :=
  if inputText.trim = "" then (store, uiEntries)
  else
    let newEntry : JournalEntry :=
      { id := id, type := EntryType.text, content := inputText.trim,
        timestamp := now }
    (saveEntry store newEntry, newEntry :: uiEntries)

/-- `handleAudioComplete` (App, lines 104-129), reduced to its data effect:
transcribe the blob; on success persist an audio entry carrying the blob and
the transcription and prepend it to the in-memory list; on a thrown error
the captured audio is discarded and nothing is persisted. -/
def handleAudioComplete (apiKey : Option String)
    (net : GenContentRequest → Except NetFault GenContentResponse)
    (blob : Blob) (id : String) (now : Int)
    (store : EntryStore) (uiEntries : List JournalEntry) :
    EntryStore × List JournalEntry :=
  match (transcribeAudio apiKey net blob).1 with
  | Except.ok transcription =>
      let newEntry : JournalEntry :=
        { id := id, type := EntryType.audio, content := transcription,
          audioBlob := some blob, timestamp := now }
      (saveEntry store newEntry, newEntry :: uiEntries)
  | Except.error _ => (store, uiEntries)

/-- One user action of the App, as it affects the store and the in-memory
entry list: submitting text, completing an audio recording, or deleting an
entry. -/
inductive AppStep :
    EntryStore × List JournalEntry → EntryStore × List JournalEntry → Prop where
  | text (inputText id : String) (now : Int) (st : EntryStore × List JournalEntry) :
      AppStep st (handleTextSubmit inputText id now st.1 st.2)
  | audio (apiKey : Option String)
      (net : GenContentRequest → Except NetFault GenContentResponse)
      (blob : Blob) (id : String) (now : Int)
      (st : EntryStore × List JournalEntry) :
      AppStep st (handleAudioComplete apiKey net blob id now st.1 st.2)
  | delete (id : String) (st : EntryStore × List JournalEntry) :
      AppStep st
        (deleteEntry st.1 id, st.2.filter (fun e => decide (e.id ≠ id)))
  | load (st : EntryStore × List JournalEntry) :
      AppStep st (st.1, getAllEntries st.1)

/-- App states reachable from the fresh state (empty store, empty list)
through any sequence of user actions. -/
inductive ReachableApp : EntryStore × List JournalEntry → Prop where
  | init : ReachableApp (emptyStore, [])
  | step (st st2 : EntryStore × List JournalEntry) :
      ReachableApp st → AppStep st st2 → ReachableApp st2

/-- The fixed MIME-type preference list of `startRecording`
(AudioRecorder, lines 44-50). -/
def mimeTypePreferences : List String :=
  ["audio/webm;codecs=opus", "audio/webm", "audio/mp4", "audio/aac",
   "audio/ogg"]

/-- The `for ... break` loop of `startRecording` (lines 52-58): the first
preference the device supports, or `''` if none is. -/
def selectMimeType (isTypeSupported : String → Bool) : String :=
  match mimeTypePreferences.find? isTypeSupported with
  | some t => t
  | none => ""

/-- Line 61: `options = selectedMimeType ? { mimeType: selectedMimeType } :
undefined`. -/
def recorderOptions (selected : String) : Option String :=
  if selected = "" then none else some selected

/-- The encoding the session ends up tagged with (lines 61-64): the
recorder's reported `mimeType` — the requested one, or the device default
when constructed without options — with the fallbacks `|| selectedMimeType
|| ''`. -/
def negotiatedMimeType (isTypeSupported : String → Bool)
    (deviceDefault : String) : String :=
  let selected := selectMimeType isTypeSupported
  let recorderMime := (recorderOptions selected).getD deviceDefault
  jsOr recorderMime (jsOr selected "")

/-- The resource-relevant state of the AudioRecorder component: which
resources are held (`streamTracksLive`, `timerRunning`), the refs
(`recorderSet`, `timerSet` — note `timerRef` is never nulled after
`clearInterval`), and ghost counters of release calls actually performed on
the device tracks and the timer. -/
structure RecorderState where
  streamAcquired : Bool
  streamTracksLive : Bool
  recorderSet : Bool
  timerSet : Bool
  timerRunning : Bool
  trackStopCalls : Nat
  clearIntervalCalls : Nat
deriving DecidableEq, Repr

/-- The component's state at mount, before `startRecording` runs. -/
def initialRecorderState : RecorderState :=
  { streamAcquired := false, streamTracksLive := false, recorderSet := false,
    timerSet := false, timerRunning := false, trackStopCalls := 0,
    clearIntervalCalls := 0 }

/-- `stopRecordingCleanup` (AudioRecorder, lines 101-108): clear the
interval if `timerRef.current` is set, and stop every track of the
recorder's stream if the recorder ref is set.  `clearInterval` and
`track.stop()` are called whether or not the resource is still live; both
are no-ops at the resource level when it is not. -/
def stopRecordingCleanup (s : RecorderState) : RecorderState :=
  let s1 :=
    if s.timerSet then
      { s with clearIntervalCalls := s.clearIntervalCalls + 1,
               timerRunning := false }
    else s
  if s1.recorderSet then
    { s1 with trackStopCalls := s1.trackStopCalls + 1,
              streamTracksLive := false }
  else s1

/-- The successful body of `startRecording` (lines 41-86): the stream is
acquired, the recorder constructed and started, and the 1-second timer
installed. -/
def startRecordingSuccess (s : RecorderState) : RecorderState :=
  { s with streamAcquired := true, streamTracksLive := true,
           recorderSet := true, timerSet := true, timerRunning := true }

/-- `startRecording` when `getUserMedia` itself rejects (caught at lines
88-91): nothing was acquired; `onCancel()` leads to unmount. -/
def startRecordingDenied (s : RecorderState) : RecorderState := s

/-- `startRecording` when the stream is acquired but the `MediaRecorder`
constructor throws (line 63, caught by the same handler): the stream is
held, yet `mediaRecorderRef.current` was never assigned. -/
def startRecordingCtorFailure (s : RecorderState) : RecorderState :=
  { s with streamAcquired := true, streamTracksLive := true }

/-- The terminal path a capture session can take: recording finalized by
Stop (the recorder's `onstop` runs the cleanup, then the parent closes the
modal and the unmount effect runs it again); cancelled mid-recording (the
parent unmounts the component, whose effect cleanup runs once); device
access denied; or the recorder constructor faulting after acquisition. -/
inductive SessionPath where
  | finalized
  | cancelled
  | denied
  | ctorFailed
deriving DecidableEq, Repr

/-- The component state at the end of each terminal path, composing the
source's handlers in the order the events fire. -/
def runSession : SessionPath → RecorderState
  | SessionPath.finalized =>
      stopRecordingCleanup
        (stopRecordingCleanup (startRecordingSuccess initialRecorderState))
  | SessionPath.cancelled =>
      stopRecordingCleanup (startRecordingSuccess initialRecorderState)
  | SessionPath.denied =>
      stopRecordingCleanup (startRecordingDenied initialRecorderState)
  | SessionPath.ctorFailed =>
      stopRecordingCleanup (startRecordingCtorFailure initialRecorderState)

/-- Sample current time used by concrete instances: midnight of day 3000
(1978-03-20). -/
def sampleNow : Int := 3000 * 86400000

/-- A sample audio blob with a concrete MIME type. -/
def sampleBlob : Blob := { bytes := [1, 2, 3], type := "audio/webm" }

/-- A sample blob whose MIME type is the empty string, as recorders that
report no type produce. -/
def sampleUntypedBlob : Blob := { bytes := [7], type := "" }

/-- A sample entry on day 3000 (today relative to `sampleNow`). -/
def entryToday : JournalEntry :=
  { id := "a", type := EntryType.text, content := "hello",
    timestamp := 3000 * 86400000 + 5000 }

/-- A sample entry on day 2999 (yesterday relative to `sampleNow`). -/
def entryYesterday : JournalEntry :=
  { id := "b", type := EntryType.text, content := "hi",
    timestamp := 2999 * 86400000 + 10 }

/-- A sample entry on day 1500 (1974-02-09, a Saturday). -/
def entryOld : JournalEntry :=
  { id := "c", type := EntryType.text, content := "old",
    timestamp := 1500 * 86400000 + 3 }

/-- A sample entry on day 2191 (1976-01-01, a Thursday). -/
def entryJan1976 : JournalEntry :=
  { id := "d", type := EntryType.text, content := "newest",
    timestamp := 2191 * 86400000 + 7 }

/-- A sample entry on day 0 (1970-01-01, also a Thursday). -/
def entryJan1970 : JournalEntry :=
  { id := "e", type := EntryType.text, content := "oldest",
    timestamp := 0 }

/-- Three sample entries on day 3000 (today), day 2999 (yesterday) and day
1500, sorted by timestamp descending; their date keys are pairwise
distinct. -/
def sampleEntries : List JournalEntry := [entryToday, entryYesterday, entryOld]

/-- Three sample entries sorted by timestamp descending whose first and last
fall on different calendar days (1976-01-01 and 1970-01-01) that share the
date key "Thursday, January 1". -/
def collidingEntries : List JournalEntry := [entryJan1976, entryOld, entryJan1970]

/-- A sample store holding one older text entry, in insertion order. -/
def sampleStore : EntryStore := { inserted := [entryYesterday] }

/-- A sample remote capability answering every request successfully. -/
def sampleNetOk : GenContentRequest → Except NetFault GenContentResponse :=
  fun _ => Except.ok { text := some "hello world" }

/-- A sample remote capability failing every request. -/
def sampleNetFail : GenContentRequest → Except NetFault GenContentResponse :=
  fun _ => Except.error { cause := "network down" }


/-- The audio entry the App creates for `sampleBlob` under `sampleNetOk`. -/
def sampleAudioEntry : JournalEntry :=
  { id := "id1", type := EntryType.audio, content := "hello world",
    audioBlob := some sampleBlob, timestamp := sampleNow }

/-- A sample remote capability returning a successful response whose text
is empty (silent audio). -/
def sampleNetSilent : GenContentRequest → Except NetFault GenContentResponse :=
  fun _ => Except.ok { text := some "" }

/-- The audio entry shape the App constructs in `handleAudioComplete`. -/
def mkAudioEntry (id content : String) (blob : Blob) (now : Int) :
    JournalEntry :=
  { id := id, type := EntryType.audio, content := content,
    audioBlob := some blob, timestamp := now }

theorem lookupGroup_addToGroup (gs : List (String × List JournalEntry))
    (kIns k : String) (e : JournalEntry) :
    lookupGroup (addToGroup gs kIns e) k =
      if kIns = k then lookupGroup gs k ++ [e] else lookupGroup gs k := by
  induction gs with
  | nil =>
      by_cases h : kIns = k <;> simp [addToGroup, lookupGroup, h]
  | cons p rest ih =>
      obtain ⟨a, es⟩ := p
      by_cases ha : a = kIns
      · subst ha
        by_cases hk : a = k <;> simp [addToGroup, lookupGroup, hk]
      · by_cases hk : a = k
        · subst hk
          have hne : a ≠ kIns := ha
          have hne2 : kIns ≠ a := fun h => hne h.symm
          simp [addToGroup, hne, lookupGroup, hne2]
        · simp [addToGroup, ha, lookupGroup, hk, ih]

theorem lookupGroup_foldl (now : Int) :
    ∀ (l : List JournalEntry) (gs : List (String × List JournalEntry))
      (k : String),
      lookupGroup
          (l.foldl (fun gs e => addToGroup gs (groupKey now e.timestamp) e) gs)
          k
        = lookupGroup gs k
            ++ l.filter (fun e => decide (groupKey now e.timestamp = k))
  | [], gs, k => by simp
  | e :: t, gs, k => by
      rw [List.foldl_cons, lookupGroup_foldl now t _ k, lookupGroup_addToGroup]
      by_cases h : groupKey now e.timestamp = k
      · simp [h, List.filter_cons]
      · simp [h, List.filter_cons]

/-- The bucket read back for a key is exactly the subsequence of entries
whose key it is, in input order: the association-list object built by the
push loop agrees with a filter. -/
theorem groupsOf_eq_filter (now : Int) (l : List JournalEntry) (k : String) :
    groupsOf now l k
      = l.filter (fun e => decide (groupKey now e.timestamp = k)) := by
  unfold groupsOf groupEntriesByDate
  rw [lookupGroup_foldl]
  simp [lookupGroup]

theorem firstDedupRec_subset {β : Type} [DecidableEq β] (l : List β) :
    ∀ x ∈ firstDedupRec l, x ∈ l := by
  induction l using firstDedupRec.induct with
  | case1 => simp [firstDedupRec]
  | case2 a t ih =>
      intro x hx
      simp only [firstDedupRec, List.mem_cons] at hx
      rcases hx with rfl | hx
      · exact List.mem_cons_self x t
      · exact List.mem_cons_of_mem a (List.mem_of_mem_filter (ih x hx))

/-- `Array.from(new Set(xs))` never repeats an element. -/
theorem firstDedupRec_nodup {β : Type} [DecidableEq β] (l : List β) :
    (firstDedupRec l).Nodup := by
  induction l using firstDedupRec.induct with
  | case1 => simp [firstDedupRec]
  | case2 a t ih =>
      simp only [firstDedupRec, List.nodup_cons]
      refine ⟨fun ha => ?_, ih⟩
      have := firstDedupRec_subset _ _ ha
      simp at this

theorem filter_append_filter_not {α : Type} (p : α → Bool) :
    ∀ (l : List α), l.Pairwise (fun x y => p y = true → p x = true) →
      l.filter p ++ l.filter (fun x => !p x) = l
  | [], _ => rfl
  | b :: s, h => by
      obtain ⟨hb, hs⟩ := List.pairwise_cons.mp h
      by_cases hpb : p b = true
      · rw [List.filter_cons_of_pos hpb,
          List.filter_cons_of_neg (by simp [hpb]), List.cons_append,
          filter_append_filter_not p s hs]
      · have hnone : ∀ y ∈ s, ¬ p y = true := fun y hy hpy => hpb (hb y hy hpy)
        rw [List.filter_cons_of_neg hpb,
          List.filter_cons_of_pos (by simp [hpb]),
          List.filter_eq_nil_iff.mpr hnone,
          List.filter_eq_self.mpr (fun y hy => by simp [hnone y hy]),
          List.nil_append]

theorem foldl_dedup_eq {β : Type} [DecidableEq β] :
    ∀ (l : List β) (acc : List β),
      l.foldl (fun acc x => if x ∈ acc then acc else acc ++ [x]) acc
        = acc ++ firstDedupRec (l.filter (fun x => decide (x ∉ acc)))
  | [], acc => by simp [firstDedupRec]
  | x :: t, acc => by
      rw [List.foldl_cons]
      by_cases hx : x ∈ acc
      · rw [if_pos hx, foldl_dedup_eq t acc]
        congr 2
        rw [List.filter_cons_of_neg (by simp [hx])]
      · rw [if_neg hx, foldl_dedup_eq t (acc ++ [x])]
        rw [List.filter_cons_of_pos (by simp [hx])]
        have hfe : t.filter (fun y => decide (y ∉ acc ++ [x]))
            = (t.filter (fun y => decide (y ∉ acc))).filter
                (fun y => decide (y ≠ x)) := by
          rw [List.filter_filter]
          refine List.filter_congr ?_
          intro y _
          by_cases hy1 : y = x
          · subst hy1
            simp
          · by_cases hy2 : y ∈ acc <;> simp [hy1, hy2, List.mem_append]
        rw [hfe]
        have hrec : firstDedupRec (x :: t.filter (fun y => decide (y ∉ acc)))
            = x :: firstDedupRec ((t.filter (fun y => decide (y ∉ acc))).filter
                (fun y => decide (y ≠ x))) := by
          simp only [firstDedupRec]
        rw [hrec, List.append_assoc]
        rfl

/-- The set-accumulating fold and the recursive characterisation compute
the same first-occurrence deduplication. -/
theorem firstDedup_eq_rec {β : Type} [DecidableEq β] (l : List β) :
    firstDedup l = firstDedupRec l := by
  unfold firstDedup
  rw [foldl_dedup_eq l []]
  rw [List.nil_append]
  congr 1
  refine List.filter_eq_self.mpr ?_
  intro y _
  simp

theorem map_filter_swap {α β : Type} [DecidableEq β] (f : α → β) (b : β)
    (t : List α) :
    (t.map f).filter (fun x => decide (x ≠ b))
      = (t.filter (fun y => decide (f y ≠ b))).map f := by
  induction t with
  | nil => rfl
  | cons a t ih =>
      simp only [decide_not] at ih ⊢
      by_cases h : f a = b <;> simp [List.filter_cons, h, ih]

/-- Core grouping fact: scanning a list whose `g`-values are non-increasing
with a key function `f` that identifies exactly the `g`-fibers, the
first-occurrence key list maps through per-key filters back onto the whole
list. -/
theorem join_groups {α β : Type} [DecidableEq β] (f : α → β) (g : α → Int) :
    ∀ (n : Nat) (l : List α), l.length ≤ n →
      l.Pairwise (fun a b => g b ≤ g a) →
      (∀ a ∈ l, ∀ b ∈ l, f a = f b ↔ g a = g b) →
      ((firstDedupRec (l.map f)).map
          (fun k => l.filter (fun x => decide (f x = k)))).flatten = l
  | _, [], _, _, _ => by simp [firstDedupRec]
  | 0, a :: t, hlen, _, _ => by simp at hlen
  | Nat.succ n, a :: t, hlen, hpair, hiff => by
      obtain ⟨hhead, htail⟩ := List.pairwise_cons.mp hpair
      have hmem2 : ∀ x ∈ t.filter (fun y => decide (f y ≠ f a)), x ∈ a :: t :=
        fun x hx => List.mem_cons_of_mem a (List.mem_of_mem_filter hx)
      have hfd : firstDedupRec ((a :: t).map f)
          = f a :: firstDedupRec ((t.filter (fun y => decide (f y ≠ f a))).map f) := by
        simp only [List.map_cons, firstDedupRec]
        rw [map_filter_swap]
      have hgrp : ∀ k ∈ firstDedupRec ((t.filter (fun y => decide (f y ≠ f a))).map f),
          (a :: t).filter (fun x => decide (f x = k))
            = (t.filter (fun y => decide (f y ≠ f a))).filter
                (fun x => decide (f x = k)) := by
        intro k hk
        have hk2 : k ∈ (t.filter (fun y => decide (f y ≠ f a))).map f :=
          firstDedupRec_subset _ k hk
        obtain ⟨y, hy, hfy⟩ := List.mem_map.mp hk2
        have hyne : f y ≠ f a := by
          have := List.of_mem_filter hy
          simpa using this
        have hkne : k ≠ f a := hfy ▸ hyne
        rw [List.filter_cons_of_neg
          (by simp only [decide_eq_true_eq]; exact fun h => hkne h.symm)]
        rw [List.filter_filter]
        refine (List.filter_congr ?_).symm
        intro x _
        by_cases hfx : f x = k
        · simp [hfx, hkne]
        · simp [hfx]
      have hlen2 : (t.filter (fun y => decide (f y ≠ f a))).length ≤ n := by
        have h1 : (t.filter (fun y => decide (f y ≠ f a))).length ≤ t.length :=
          List.length_filter_le _ _
        have h2 : t.length ≤ n := by simpa using Nat.le_of_succ_le_succ hlen
        exact Nat.le_trans h1 h2
      have hpair2 : (t.filter (fun y => decide (f y ≠ f a))).Pairwise
          (fun a b => g b ≤ g a) :=
        htail.sublist (List.filter_sublist t)
      have hiff2 : ∀ x ∈ t.filter (fun y => decide (f y ≠ f a)),
          ∀ y ∈ t.filter (fun y => decide (f y ≠ f a)), f x = f y ↔ g x = g y :=
        fun x hx y hy => hiff x (hmem2 x hx) y (hmem2 y hy)
      have hIH := join_groups f g n (t.filter (fun y => decide (f y ≠ f a)))
        hlen2 hpair2 hiff2
      have hprefix : t.Pairwise (fun x y =>
          decide (f y = f a) = true → decide (f x = f a) = true) := by
        refine htail.imp_of_mem ?_
        intro x y hx hy hxy hpy
        have hfy : f y = f a := of_decide_eq_true hpy
        have hgy : g y = g a :=
          (hiff y (List.mem_cons_of_mem a hy) a (List.mem_cons_self a t)).mp
            hfy
        have hgx : g x = g a :=
          le_antisymm (hhead x hx) (hgy ▸ hxy)
        exact decide_eq_true
          ((hiff x (List.mem_cons_of_mem a hx) a (List.mem_cons_self a t)).mpr
            hgx)
      have hsplit : t.filter (fun x => decide (f x = f a))
          ++ t.filter (fun y => decide (f y ≠ f a)) = t := by
        have h2 : t.filter (fun y => decide (f y ≠ f a))
            = t.filter (fun x => !(decide (f x = f a))) :=
          List.filter_congr (fun x _ => by simp [decide_not])
        rw [h2]
        exact filter_append_filter_not (fun x => decide (f x = f a)) t hprefix
      rw [hfd]
      simp only [List.map_cons, List.flatten_cons]
      rw [List.map_congr_left hgrp, hIH]
      rw [List.filter_cons_of_pos (by simp)]
      rw [List.cons_append, hsplit]

theorem calendarDay_mono {a b : Int} (h : a ≤ b) :
    calendarDay a ≤ calendarDay b := by
  unfold calendarDay
  exact Int.ediv_le_ediv (by decide) h

/-- The group key of an entry depends on its timestamp only through the
calendar day the timestamp falls on. -/
theorem groupKey_congr (now : Int) {t1 t2 : Int}
    (h : calendarDay t1 = calendarDay t2) :
    groupKey now t1 = groupKey now t2 := by
  unfold groupKey
  rw [h]

/-- C1 (amended): for an entry sequence sorted by timestamp descending on
which the date key is injective per calendar day (no cross-year
weekday+month+day collision among the entries), the bucketing partitions
the sequence: the ordered keys are pairwise distinct, concatenating the
buckets in key order yields exactly the input, and each bucket is a
nonempty contiguous block of entries all carrying its key. -/
theorem c1_bucket_partition (now : Int) (l : List JournalEntry)
    (hsorted : l.Pairwise (fun a b => b.timestamp ≤ a.timestamp))
    (hinj : ∀ a ∈ l, ∀ b ∈ l,
      groupKey now a.timestamp = groupKey now b.timestamp →
      calendarDay a.timestamp = calendarDay b.timestamp) :
    (orderedKeys now l).Nodup ∧
    ((orderedKeys now l).map (fun k => groupsOf now l k)).flatten = l ∧
    ∀ k ∈ orderedKeys now l, groupsOf now l k ≠ [] ∧
      (∀ e ∈ groupsOf now l k, groupKey now e.timestamp = k) ∧
      ∃ pre post, pre ++ groupsOf now l k ++ post = l := by
  have hiff : ∀ a ∈ l, ∀ b ∈ l,
      groupKey now a.timestamp = groupKey now b.timestamp ↔
      calendarDay a.timestamp = calendarDay b.timestamp :=
    fun a ha b hb => ⟨hinj a ha b hb, fun h => groupKey_congr now h⟩
  have hpair : l.Pairwise
      (fun a b => calendarDay b.timestamp ≤ calendarDay a.timestamp) :=
    hsorted.imp (fun h => calendarDay_mono h)
  have hjoin0 := join_groups (fun e => groupKey now e.timestamp)
    (fun e => calendarDay e.timestamp) l.length l (le_refl _) hpair hiff
  have hok : orderedKeys now l
      = firstDedupRec (l.map (fun e => groupKey now e.timestamp)) := by
    unfold orderedKeys
    exact firstDedup_eq_rec _
  have hmapeq : (orderedKeys now l).map (fun k => groupsOf now l k)
      = (firstDedupRec (l.map (fun e => groupKey now e.timestamp))).map
          (fun k => l.filter (fun x => decide (groupKey now x.timestamp = k))) := by
    rw [hok]
    exact List.map_congr_left (fun k _ => groupsOf_eq_filter now l k)
  have hjoin : ((orderedKeys now l).map (fun k => groupsOf now l k)).flatten
      = l := by
    rw [hmapeq]
    exact hjoin0
  refine ⟨by rw [hok]; exact firstDedupRec_nodup _, hjoin, ?_⟩
  intro k hk
  have hkrec : k ∈ firstDedupRec (l.map (fun e => groupKey now e.timestamp)) :=
    hok ▸ hk
  have hkmem : k ∈ l.map (fun e => groupKey now e.timestamp) :=
    firstDedupRec_subset _ k hkrec
  obtain ⟨e, he, hek⟩ := List.mem_map.mp hkmem
  have hfil := groupsOf_eq_filter now l k
  refine ⟨?_, ?_, ?_⟩
  · rw [hfil]
    exact List.ne_nil_of_mem
      (List.mem_filter.mpr ⟨he, by simp [hek]⟩)
  · intro e2 he2
    rw [hfil] at he2
    simpa using (List.mem_filter.mp he2).2
  · obtain ⟨ks1, ks2, hsplitk⟩ := List.append_of_mem hk
    have h2 := hjoin
    rw [hsplitk, List.map_append, List.flatten_append, List.map_cons,
      List.flatten_cons] at h2
    exact ⟨_, _, by rw [List.append_assoc]; exact h2⟩

/-- C1 counterexample: on a timestamp-descending entry sequence containing
1976-01-01 and 1970-01-01 (both rendered "Thursday, January 1") with an
entry in between, concatenating the buckets in ordered-key order does not
restore the input, refuting the claim as stated. -/
theorem c1_counterexample :
    collidingEntries.Pairwise (fun a b => b.timestamp ≤ a.timestamp) ∧
    ((orderedKeys sampleNow collidingEntries).map
        (fun k => groupsOf sampleNow collidingEntries k)).flatten
      ≠ collidingEntries := by decide

/-- C1 witness: the partition property instantiated on a concrete
three-entry sequence spanning today, yesterday and one older date. -/
theorem c1_bucket_partition_witness :
    (orderedKeys sampleNow sampleEntries).Nodup ∧
    ((orderedKeys sampleNow sampleEntries).map
        (fun k => groupsOf sampleNow sampleEntries k)).flatten
      = sampleEntries :=
  ⟨(c1_bucket_partition sampleNow sampleEntries (by decide) (by decide)).1,
   (c1_bucket_partition sampleNow sampleEntries (by decide) (by decide)).2.1⟩

/-- C2 (amended): relative to the wall-clock date at call time, the group
key is "Today" on the current calendar day, "Yesterday" on the previous
one, and otherwise the locale-formatted weekday+month+day string of the
entry's calendar date; since that string omits the year, it is constant
across calendar dates sharing weekday, month and day of month, so the key
is not injective on calendar dates (dates one or more years apart can
collide). -/
theorem c2_group_key_cases (now t : Int) :
    (calendarDay t = calendarDay now → groupKey now t = "Today") ∧
    (calendarDay t ≠ calendarDay now → calendarDay t = calendarDay now - 1 →
      groupKey now t = "Yesterday") ∧
    (calendarDay t ≠ calendarDay now → calendarDay t ≠ calendarDay now - 1 →
      groupKey now t = localeDateString (calendarDay t)) ∧
    ∀ t2 : Int,
      weekdayOf (calendarDay t2) = weekdayOf (calendarDay t) →
      (civilFromDays (calendarDay t2)).2 = (civilFromDays (calendarDay t)).2 →
      calendarDay t2 ≠ calendarDay now →
      calendarDay t2 ≠ calendarDay now - 1 →
      calendarDay t ≠ calendarDay now →
      calendarDay t ≠ calendarDay now - 1 →
      groupKey now t2 = groupKey now t := by
  refine ⟨fun h => by simp [groupKey, h],
    fun h1 h2 => by simp [groupKey, h1, h2],
    fun h1 h2 => by simp [groupKey, h1, h2], ?_⟩
  intro t2 hw hmd h1 h2 h3 h4
  have ha : groupKey now t2 = localeDateString (calendarDay t2) := by
    simp [groupKey, h1, h2]
  have hb : groupKey now t = localeDateString (calendarDay t) := by
    simp [groupKey, h3, h4]
  rw [ha, hb]
  unfold localeDateString
  rw [hw, hmd]

/-- C2 witness: the three key cases evaluated on concrete timestamps. -/
theorem c2_group_key_cases_witness :
    groupKey sampleNow (3000 * 86400000 + 5000) = "Today" ∧
    groupKey sampleNow (2999 * 86400000 + 10) = "Yesterday" ∧
    groupKey sampleNow (1500 * 86400000 + 3) = "Saturday, February 9" := by
  refine ⟨(c2_group_key_cases sampleNow _).1 (by decide), ?_, ?_⟩
  · exact (c2_group_key_cases sampleNow _).2.1 (by decide) (by decide)
  · have h := (c2_group_key_cases sampleNow (1500 * 86400000 + 3)).2.2.1
      (by decide) (by decide)
    rw [h]
    decide

/-- C2 counterexample: 1970-01-01 and 1976-01-01 are different calendar
dates, neither keyed Today nor Yesterday, yet they receive the same key
"Thursday, January 1" — the key function is not injective on calendar
dates. -/
theorem c2_injectivity_counterexample :
    groupKey sampleNow entryJan1970.timestamp
      = groupKey sampleNow entryJan1976.timestamp ∧
    calendarDay entryJan1970.timestamp
      ≠ calendarDay entryJan1976.timestamp ∧
    groupKey sampleNow entryJan1970.timestamp ≠ "Today" ∧
    groupKey sampleNow entryJan1970.timestamp ≠ "Yesterday" := by decide

theorem filter_orderedInsert {α : Type} (r : α → α → Prop) [DecidableRel r]
    (p : α → Bool) (a : α) :
    ∀ (l : List α), (p a = true → ∀ b ∈ l, p b = true → r a b) →
      (List.orderedInsert r a l).filter p
        = if p a then a :: l.filter p else l.filter p
  | [], _ => by
      by_cases hpa : p a <;>
        simp [List.orderedInsert, List.filter_cons, hpa]
  | b :: l, h => by
      by_cases hr : r a b
      · by_cases hpa : p a <;>
          simp [List.orderedInsert, hr, List.filter_cons, hpa]
      · have hrec := filter_orderedInsert r p a l
          (fun hpa b2 hb2 hpb2 => h hpa b2 (List.mem_cons_of_mem b hb2) hpb2)
        by_cases hpa : p a
        · have hpb : p b = false := by
            rcases Bool.eq_false_or_eq_true (p b) with ht | hf
            · exact absurd (h hpa b (List.mem_cons_self b l) ht) hr
            · exact hf
          simp [List.orderedInsert, hr, List.filter_cons, hpa, hpb, hrec]
        · by_cases hpb : p b <;>
            simp [List.orderedInsert, hr, List.filter_cons, hpa, hpb, hrec]

/-- A sort whose comparison looks only at a key preserves the relative
order of elements sharing that key: filtering the sorted list down to one
fiber of `p` gives the same list as filtering the input. -/
theorem filter_insertionSort {α : Type} (r : α → α → Prop) [DecidableRel r]
    (p : α → Bool) (hp : ∀ a b, p a = true → p b = true → r a b) :
    ∀ (l : List α), (List.insertionSort r l).filter p = l.filter p
  | [] => rfl
  | a :: l => by
      rw [List.insertionSort,
        filter_orderedInsert r p a _
          (fun hpa b _ hpb => hp a b hpa hpb),
        filter_insertionSort r p hp l]
      by_cases hpa : p a <;> simp [List.filter_cons, hpa]

/-- C3: inserting an entry whose timestamp is at least every stored one and
listing places the new entry first — the listing is the previous listing
prefixed by it; the listing is sorted by `createdAt` descending; and among
entries with any fixed timestamp, the listing preserves
reverse-insertion-order (the later insert sorts first). -/
theorem c3_insert_listAll (s : EntryStore) (e : JournalEntry)
    (hmax : ∀ x ∈ s.inserted, x.timestamp ≤ e.timestamp) :
    getAllEntries (saveEntry s e) = e :: getAllEntries s ∧
    List.Sorted newestFirst (getAllEntries (saveEntry s e)) ∧
    ∀ t : Int,
      (getAllEntries (saveEntry s e)).filter (fun x => decide (x.timestamp = t))
        = ((saveEntry s e).inserted.reverse).filter
            (fun x => decide (x.timestamp = t)) := by
  refine ⟨?_, List.sorted_insertionSort _ _, ?_⟩
  · show List.insertionSort newestFirst (s.inserted ++ [e]).reverse
        = e :: List.insertionSort newestFirst s.inserted.reverse
    rw [List.reverse_append, List.reverse_singleton, List.singleton_append]
    exact List.insertionSort_cons newestFirst
      (fun b hb => hmax b (List.mem_reverse.mp hb))
  · intro t
    exact filter_insertionSort newestFirst
      (fun x => decide (x.timestamp = t))
      (fun a b hpa hpb => by
        unfold newestFirst
        have h1 : a.timestamp = t := of_decide_eq_true hpa
        have h2 : b.timestamp = t := of_decide_eq_true hpb
        rw [h1, h2]) _

/-- C3 witness: inserting a today-entry into a store holding one older
entry lists the new entry first. -/
theorem c3_insert_listAll_witness :
    getAllEntries (saveEntry sampleStore entryToday)
      = entryToday :: getAllEntries sampleStore :=
  (c3_insert_listAll sampleStore entryToday (by decide)).1

/-- C4: in every App state reachable by user actions, every persisted entry
and every in-memory entry carries an audio attachment exactly when its kind
is audio: the audio handler always attaches the captured blob and the text
handler never attaches one. -/
theorem c4_attachment_iff_audio (st : EntryStore × List JournalEntry)
    (h : ReachableApp st) :
    (∀ e ∈ st.1.inserted, e.type = EntryType.audio ↔ e.audioBlob ≠ none) ∧
    (∀ e ∈ st.2, e.type = EntryType.audio ↔ e.audioBlob ≠ none) := by
  induction h with
  | init => exact ⟨fun e he => by simp [emptyStore] at he, fun e he => by simp at he⟩
  | step st st2 hr hstep ih =>
      obtain ⟨ih1, ih2⟩ := ih
      cases hstep with
      | text inputText id now st =>
          unfold handleTextSubmit
          by_cases hblank : inputText.trim = ""
          · rw [if_pos hblank]
            exact ⟨ih1, ih2⟩
          · rw [if_neg hblank]
            refine ⟨fun e he => ?_, fun e he => ?_⟩
            · simp only [saveEntry, List.mem_append, List.mem_singleton] at he
              rcases he with he | rfl
              · exact ih1 e he
              · simp
            · simp only [List.mem_cons] at he
              rcases he with rfl | he
              · simp
              · exact ih2 e he
      | audio apiKey net blob id now st =>
          unfold handleAudioComplete
          cases htr : (transcribeAudio apiKey net blob).1 with
          | ok transcription =>
              refine ⟨fun e he => ?_, fun e he => ?_⟩
              · simp only [saveEntry, List.mem_append, List.mem_singleton] at he
                rcases he with he | rfl
                · exact ih1 e he
                · simp
              · simp only [List.mem_cons] at he
                rcases he with rfl | he
                · simp
                · exact ih2 e he
          | error err => exact ⟨ih1, ih2⟩
      | delete id st =>
          refine ⟨fun e he => ?_, fun e he => ?_⟩
          · simp only [deleteEntry, List.mem_filter] at he
            exact ih1 e he.1
          · simp only [List.mem_filter] at he
            exact ih2 e he.1
      | load st =>
          refine ⟨ih1, fun e he => ?_⟩
          have : e ∈ st.1.inserted := by
            have h1 : e ∈ st.1.inserted.reverse := by
              simpa [getAllEntries] using he
            exact List.mem_reverse.mp h1
          exact ih1 e this

/-- C4 witness: after one audio submission from the fresh state, the
persisted entry satisfies the attachment equivalence. -/
theorem c4_attachment_iff_audio_witness :
    sampleAudioEntry.type = EntryType.audio ↔ sampleAudioEntry.audioBlob ≠ none :=
  (c4_attachment_iff_audio _
    (ReachableApp.step _ _ ReachableApp.init
      (AppStep.audio (some "key") sampleNetOk sampleBlob "id1" sampleNow
        (emptyStore, [])))).1 sampleAudioEntry (by decide)

/-- C5: with the credential absent (undefined or empty, the two falsy
cases of `!process.env.API_KEY`), `transcribeAudio` throws the
configuration error "API Key is missing." immediately: no request is ever
issued, and the audio handler leaves the store and the entry list
untouched. -/
theorem c5_missing_key (apiKey : Option String)
    (net : GenContentRequest → Except NetFault GenContentResponse)
    (blob : Blob) (h : isFalsyKey apiKey = true) :
    (transcribeAudio apiKey net blob).1
      = Except.error (TranscribeError.configError "API Key is missing.") ∧
    (transcribeAudio apiKey net blob).2 = [] ∧
    ∀ (id : String) (now : Int) (store : EntryStore)
      (ui : List JournalEntry),
      handleAudioComplete apiKey net blob id now store ui = (store, ui) := by
  refine ⟨by simp [transcribeAudio, h], by simp [transcribeAudio, h], ?_⟩
  intro id now store ui
  simp [handleAudioComplete, transcribeAudio, h]

/-- C5 witness: the missing-credential behaviour at a concrete call. -/
theorem c5_missing_key_witness :
    (transcribeAudio none sampleNetOk sampleBlob).1
      = Except.error (TranscribeError.configError "API Key is missing.") ∧
    (transcribeAudio none sampleNetOk sampleBlob).2 = [] ∧
    handleAudioComplete none sampleNetOk sampleBlob "id1" sampleNow
        emptyStore [] = (emptyStore, []) := by
  have h := c5_missing_key none sampleNetOk sampleBlob (by decide)
  exact ⟨h.1, h.2.1, h.2.2 "id1" sampleNow emptyStore []⟩

/-- C6: when the remote call faults, `transcribeAudio` rethrows an error
carrying the underlying fault, issues exactly the one request it built (no
retry), and the audio handler persists nothing and leaves the entry list
unchanged — the captured audio is discarded. -/
theorem c6_provider_fault (apiKey : Option String)
    (net : GenContentRequest → Except NetFault GenContentResponse)
    (blob : Blob) (fault : NetFault)
    (hkey : isFalsyKey apiKey = false)
    (hnet : net (geminiRequest blob) = Except.error fault) :
    (transcribeAudio apiKey net blob).1
      = Except.error (TranscribeError.providerFault fault) ∧
    (transcribeAudio apiKey net blob).2 = [geminiRequest blob] ∧
    ∀ (id : String) (now : Int) (store : EntryStore)
      (ui : List JournalEntry),
      handleAudioComplete apiKey net blob id now store ui = (store, ui) := by
  refine ⟨by simp [transcribeAudio, hkey, hnet], by simp [transcribeAudio, hkey, hnet], ?_⟩
  intro id now store ui
  simp [handleAudioComplete, transcribeAudio, hkey, hnet]

/-- C6 witness: a concrete faulting capability. -/
theorem c6_provider_fault_witness :
    (transcribeAudio (some "key") sampleNetFail sampleBlob).1
      = Except.error (TranscribeError.providerFault { cause := "network down" }) ∧
    (transcribeAudio (some "key") sampleNetFail sampleBlob).2
      = [geminiRequest sampleBlob] ∧
    handleAudioComplete (some "key") sampleNetFail sampleBlob "id1" sampleNow
        emptyStore [] = (emptyStore, []) := by
  have h := c6_provider_fault (some "key") sampleNetFail sampleBlob
    { cause := "network down" } (by decide) rfl
  exact ⟨h.1, h.2.1, h.2.2 "id1" sampleNow emptyStore []⟩

/-- C7: on a successful response, `transcribeAudio` returns the provider's
text, defaulting to the empty string when the provider yields none or an
empty text — a success outcome, not an error — and the handler still
persists an audio entry with that (possibly empty) content and prepends it
to the entry list. -/
theorem c7_success_text (apiKey : Option String)
    (net : GenContentRequest → Except NetFault GenContentResponse)
    (blob : Blob) (resp : GenContentResponse)
    (hkey : isFalsyKey apiKey = false)
    (hnet : net (geminiRequest blob) = Except.ok resp) :
    (transcribeAudio apiKey net blob).1
      = Except.ok (jsOr (resp.text.getD "") "") ∧
    ((resp.text = none ∨ resp.text = some "") →
      (transcribeAudio apiKey net blob).1 = Except.ok "") ∧
    (∀ tx : String, resp.text = some tx → tx ≠ "" →
      (transcribeAudio apiKey net blob).1 = Except.ok tx) ∧
    ∀ (id : String) (now : Int) (store : EntryStore)
      (ui : List JournalEntry),
      handleAudioComplete apiKey net blob id now store ui
        = (saveEntry store
            (mkAudioEntry id (jsOr (resp.text.getD "") "") blob now),
           mkAudioEntry id (jsOr (resp.text.getD "") "") blob now :: ui) := by
  refine ⟨by simp [transcribeAudio, hkey, hnet], ?_, ?_, ?_⟩
  · rintro (hnone | hempty)
    · simp [transcribeAudio, hkey, hnet, hnone, jsOr]
    · simp [transcribeAudio, hkey, hnet, hempty, jsOr]
  · intro tx htx hne
    simp [transcribeAudio, hkey, hnet, htx, jsOr, hne]
  · intro id now store ui
    simp [handleAudioComplete, transcribeAudio, hkey, hnet, mkAudioEntry]

/-- C7 witness: silent audio transcribes to the empty string and the entry
is still created with empty content. -/
theorem c7_success_text_witness :
    (transcribeAudio (some "key") sampleNetSilent sampleBlob).1
      = Except.ok "" ∧
    handleAudioComplete (some "key") sampleNetSilent sampleBlob "id1"
        sampleNow emptyStore []
      = (saveEntry emptyStore (mkAudioEntry "id1" "" sampleBlob sampleNow),
         [mkAudioEntry "id1" "" sampleBlob sampleNow]) := by
  have h := c7_success_text (some "key") sampleNetSilent sampleBlob
    { text := some "" } (by decide) rfl
  exact ⟨h.2.1 (Or.inr rfl), h.2.2.2 "id1" sampleNow emptyStore []⟩

/-- C10: the MIME type of the one transcription request is the blob's own
MIME type when non-empty, and "audio/webm" when the blob reports the empty
type; an empty type is not an error — the request is still issued. -/
theorem c10_request_mime (apiKey : Option String)
    (net : GenContentRequest → Except NetFault GenContentResponse)
    (blob : Blob) (hkey : isFalsyKey apiKey = false) :
    (blob.type ≠ "" → (geminiRequest blob).mimeType = blob.type) ∧
    (blob.type = "" → (geminiRequest blob).mimeType = "audio/webm") ∧
    (transcribeAudio apiKey net blob).2 = [geminiRequest blob] := by
  refine ⟨fun h => by simp [geminiRequest, jsOr, h],
    fun h => by simp [geminiRequest, jsOr, h], ?_⟩
  cases hn : net (geminiRequest blob) <;> simp [transcribeAudio, hkey, hn]

/-- C10 witness: a typed and an untyped blob at a concrete call. -/
theorem c10_request_mime_witness :
    (geminiRequest sampleBlob).mimeType = "audio/webm" ∧
    (geminiRequest sampleUntypedBlob).mimeType = "audio/webm" ∧
    (transcribeAudio (some "key") sampleNetOk sampleUntypedBlob).2
      = [geminiRequest sampleUntypedBlob] := by
  have h1 := c10_request_mime (some "key") sampleNetOk sampleBlob (by decide)
  have h2 := c10_request_mime (some "key") sampleNetOk sampleUntypedBlob
    (by decide)
  exact ⟨h1.1 (by decide), h2.2.1 rfl, h2.2.2⟩

theorem find?_append_first {α : Type} (p : α → Bool) :
    ∀ (pre : List α) (t : α) (post : List α),
      (∀ u ∈ pre, p u = false) → p t = true →
      (pre ++ t :: post).find? p = some t
  | [], t, post, _, hpt => by simp [List.find?_cons, hpt]
  | u :: pre, t, post, hpre, hpt => by
      have hu : p u = false := hpre u (List.mem_cons_self u pre)
      simp only [List.cons_append, List.find?_cons, hu]
      exact find?_append_first p pre t post
        (fun v hv => hpre v (List.mem_cons_of_mem u hv)) hpt

/-- C8: encoding negotiation tries the fixed ordered preference list and
selects the first entry the device supports, expressed by splitting the
list at the first supported entry; when the device supports none of them
it falls back to the device's default encoding.  Both branches are total —
negotiation itself never fails. -/
theorem c8_mime_negotiation (sup : String → Bool) (deviceDefault : String) :
    ((∀ t ∈ mimeTypePreferences, sup t = false) →
      negotiatedMimeType sup deviceDefault = deviceDefault) ∧
    ∀ (pre : List String) (t : String) (post : List String),
      mimeTypePreferences = pre ++ t :: post →
      (∀ u ∈ pre, sup u = false) → sup t = true →
      negotiatedMimeType sup deviceDefault = t := by
  constructor
  · intro hall
    have hfind : mimeTypePreferences.find? sup = none :=
      List.find?_eq_none.mpr (fun x hx => by simp [hall x hx])
    unfold negotiatedMimeType selectMimeType
    rw [hfind]
    by_cases hdd : deviceDefault = "" <;>
      simp [recorderOptions, jsOr, hdd]
  · intro pre t post heq hpre hpt
    have hfind : mimeTypePreferences.find? sup = some t := by
      rw [heq]
      exact find?_append_first sup pre t post hpre hpt
    have htmem : t ∈ mimeTypePreferences := by
      rw [heq]
      exact List.mem_append.mpr (Or.inr (List.mem_cons_self t post))
    have htne : t ≠ "" := by
      simp only [mimeTypePreferences, List.mem_cons,
        List.not_mem_nil, or_false] at htmem
      rcases htmem with rfl | rfl | rfl | rfl | rfl <;> decide
    unfold negotiatedMimeType selectMimeType
    rw [hfind]
    simp [recorderOptions, htne, jsOr]

/-- C8 witness: a device supporting only "audio/mp4" negotiates it: the
two earlier preferences are unsupported and the scan stops at the first
supported one. -/
theorem c8_mime_negotiation_witness :
    negotiatedMimeType (fun s => decide (s = "audio/mp4")) "device-default"
      = "audio/mp4" :=
  (c8_mime_negotiation (fun s => decide (s = "audio/mp4"))
      "device-default").2
    ["audio/webm;codecs=opus", "audio/webm"] "audio/mp4"
    ["audio/aac", "audio/ogg"] (by decide) (by decide) (by decide)

/-- C9 (amended): on the Finalized and Cancelled paths the device tracks
and the timer end released, with at least one release call each; the
Cancelled path releases exactly once, while the Finalized path runs the
cleanup twice (recorder stop handler, then unmount effect), the second
pass being a no-op on the already-released resources; the device-denial
path acquired nothing; but when the recorder constructor faults after the
stream was acquired, the stream is left held.  The timer never survives
any terminal path. -/
theorem c9_resource_release (p : SessionPath) :
    ((p = SessionPath.finalized ∨ p = SessionPath.cancelled) →
      (runSession p).streamTracksLive = false ∧
      (runSession p).timerRunning = false ∧
      (runSession p).trackStopCalls ≥ 1 ∧
      (runSession p).clearIntervalCalls ≥ 1) ∧
    (p = SessionPath.cancelled →
      (runSession p).trackStopCalls = 1 ∧
      (runSession p).clearIntervalCalls = 1) ∧
    (p = SessionPath.denied →
      (runSession p).streamAcquired = false ∧
      (runSession p).streamTracksLive = false ∧
      (runSession p).trackStopCalls = 0) ∧
    (p = SessionPath.ctorFailed →
      (runSession p).streamAcquired = true ∧
      (runSession p).streamTracksLive = true ∧
      (runSession p).trackStopCalls = 0) ∧
    (runSession p).timerRunning = false := by
  cases p <;> decide

/-- C9 witness: the cancellation path releases the device and timer exactly
once. -/
theorem c9_resource_release_witness :
    (runSession SessionPath.cancelled).trackStopCalls = 1 ∧
    (runSession SessionPath.cancelled).clearIntervalCalls = 1 :=
  (c9_resource_release SessionPath.cancelled).2.1 rfl

/-- C9 counterexample: on the normal finalize path the cleanup routine runs
twice — `track.stop()` and `clearInterval` are each called twice, not
exactly once — because the recorder's stop handler and the unmount effect
both invoke it. -/
theorem c9_double_release_counterexample :
    (runSession SessionPath.finalized).trackStopCalls = 2 ∧
    (runSession SessionPath.finalized).clearIntervalCalls = 2 := by decide
